import Mathlib

/-!
Shallow embedding of the PDF annotation editor (`src/App.tsx`,
`src/components/DrawingCanvas.tsx`, `src/components/ImageAnnotation.tsx`,
`src/components/Sidebar.tsx`).

JavaScript numbers are modelled as rationals (`ℚ`); strings as `List Char`.
The JS truthiness fallback `a || b` is modelled by `jsOr*` helpers (`0`,
`undefined` and the empty string are falsy).
-/

namespace PdfEditor

/-- `a || b` on optional numbers: `undefined` and `0` fall back to `b`. -/
def jsOrQ (o : Option ℚ) (d : ℚ) : ℚ :=
  match o with
  | none => d
  | some v => if v = 0 then d else v

/-- `a || b` on optional strings: `undefined` and `''` fall back to `b`. -/
def jsOrS (o : Option (List Char)) (d : List Char) : List Char :=
  match o with
  | none => d
  | some v => if v = [] then d else v

/-- `a || b` on strings: `''` falls back to `b`. -/
def jsOrStr (v d : List Char) : List Char :=
  if v = [] then d else v

/-- One token of an SVG-style path string `"M x y L x y ..."` as produced by
`DrawingCanvas` and consumed by the export loop after `path.split(' ')`.
A numeric token is carried by its value.  (Malformed strings whose parse
would produce `NaN` in JS are outside the rational embedding.) -/
inductive PathTok where
  | M : PathTok
  | L : PathTok
  | num : ℚ → PathTok
deriving DecidableEq, Repr

/-- `interface Annotation` from `App.tsx`. -/
structure Annotation where
  id : Nat
  text : List Char
  x : ℚ
  y : ℚ
  page : Nat
  color : Option (List Char)
  fontSize : Option ℚ
  font : Option (List Char)
  bold : Bool
  underline : Bool
deriving DecidableEq, Repr

/-- `interface ImageAttachment` from `App.tsx`; the `File` payload is an
opaque byte handle plus its declared MIME type string. -/
structure ImageAttachment where
  id : Nat
  fileBytes : Nat
  fileType : List Char
  x : ℚ
  y : ℚ
  width : ℚ
  height : ℚ
  page : Nat
deriving DecidableEq, Repr

/-- `interface PathAttachment` from `App.tsx`; the path string is kept
as its token list. -/
structure PathAttachment where
  id : Nat
  path : List PathTok
  color : List Char
  width : ℚ
  page : Nat
deriving DecidableEq, Repr

/-- The `docState` triple of `App.tsx`. -/
structure DocState where
  annotations : List Annotation
  images : List ImageAttachment
  paths : List PathAttachment
deriving DecidableEq, Repr

/-- The history `useState` of `App.tsx` together with the current
`docState`: `past`/`future` are stacks of whole-document snapshots. -/
structure AppHistory where
  docState : DocState
  past : List DocState
  future : List DocState
deriving DecidableEq, Repr

/-- `pushState` (App.tsx lines 79-85): push the current state onto `past`,
clear `future`, set the new current state. -/
def pushState (h : AppHistory) (s : DocState) : AppHistory :=
  { docState := s, past := h.past ++ [h.docState], future := [] }

/-- `undo` (App.tsx lines 87-99): no-op on empty `past`, else pop the last
element of `past` into current and push the state being left onto the
front of `future`. -/
def undo (h : AppHistory) : AppHistory :=
  match h.past.getLast? with
  | none => h
  | some previous =>
      { docState := previous
        past := h.past.dropLast
        future := h.docState :: h.future }

/-- `redo` (App.tsx lines 101-113): no-op on empty `future`, else pop the
first element of `future` into current and push the state being left onto
the end of `past`. -/
def redo (h : AppHistory) : AppHistory :=
  match h.future with
  | [] => h
  | next :: newFuture =>
      { docState := next
        past := h.past ++ [h.docState]
        future := newFuture }

/-- The `currentTool` union type of `App.tsx`. -/
inductive Tool where
  | select : Tool
  | text : Tool
  | draw : Tool
  | eraser : Tool
deriving DecidableEq, Repr

/-- The slice of `App`'s component state that the tool/gesture claims
need: the document state, the history, the active tool, the probed native
page dimensions, the zoom `scale`, the pen settings and the current page. -/
structure AppState where
  docState : DocState
  past : List DocState
  future : List DocState
  currentTool : Tool
  pageDimensions : Option (ℚ × ℚ)
  renderedPageSize : Option (ℚ × ℚ)
  scale : ℚ
  brushColor : List Char
  brushWidth : ℚ
  pageNumber : Nat
deriving DecidableEq, Repr

/-- `pushState` lifted to the full `App` state (it touches only
`docState`, `past` and `future`). -/
def appPushState (s : AppState) (d : DocState) : AppState :=
  { s with past := s.past ++ [s.docState], future := [], docState := d }

/-- `setCurrentTool`: the only state change performed by the sidebar's
tool toggles. -/
def setTool (s : AppState) (t : Tool) : AppState :=
  { s with currentTool := t }

def blackChars : List Char := ['#', '0', '0', '0', '0', '0', '0']

def whiteChars : List Char := ['#', 'F', 'F', 'F', 'F', 'F', 'F']

def helveticaChars : List Char := ['H', 'e', 'l', 'v', 'e', 't', 'i', 'c', 'a']

def timesRomanChars : List Char :=
  ['T', 'i', 'm', 'e', 's', '-', 'R', 'o', 'm', 'a', 'n']

def courierChars : List Char := ['C', 'o', 'u', 'r', 'i', 'e', 'r']

def pngMimeChars : List Char := ['i', 'm', 'a', 'g', 'e', '/', 'p', 'n', 'g']

/-- `handleAddPath` (App.tsx lines 233-248): bail out if the page
dimensions were never probed, else append a new `PathAttachment` stamped
with the current page number and commit via `pushState`. -/
def handleAddPath (s : AppState) (newId : Nat) (p : List PathTok)
    (color : List Char) (width : ℚ) : AppState :=
  match s.pageDimensions with
  | none => s
  | some _ =>
      appPushState s
        { s.docState with
          paths := s.docState.paths ++ [⟨newId, p, color, width, s.pageNumber⟩] }

/-- One `" L x y"` append per recorded point. -/
def lineTokens : List (ℚ × ℚ) → List PathTok
  | [] => []
  | q :: qs => PathTok.L :: PathTok.num q.1 :: PathTok.num q.2 :: lineTokens qs

/-- `DrawingCanvas.handleMouseDown` plus the installed `mousemove`
listeners: the pointer-down point opens the path with an `M` token and
every move appends an `L` token, each coordinate translated by the
canvas' bounding rect and divided by the zoom `scale`. -/
def capturePath (scale rectLeft rectTop : ℚ) (down : ℚ × ℚ)
    (moves : List (ℚ × ℚ)) : List PathTok :=
  PathTok.M :: PathTok.num ((down.1 - rectLeft) / scale) ::
    PathTok.num ((down.2 - rectTop) / scale) ::
    lineTokens (moves.map fun m =>
      ((m.1 - rectLeft) / scale, (m.2 - rectTop) / scale))

/-- A complete pointer gesture on the page surface of the active
`DrawingCanvas` (App.tsx lines 638-653, DrawingCanvas.tsx lines 38-89):
the canvas is mounted with `isDrawing` true exactly when the current tool
is `draw` or `eraser` and the page dimensions are known; `handleMouseUp`
commits the accumulated path (always non-empty after a pointer-down) via
`onAddPath`, using white ink when the eraser is active. -/
def drawGesture (s : AppState) (newId : Nat) (rectLeft rectTop : ℚ)
    (down : ℚ × ℚ) (moves : List (ℚ × ℚ)) : AppState :=
  if (s.currentTool = Tool.draw ∨ s.currentTool = Tool.eraser) ∧
      s.pageDimensions.isSome then
    let col := if s.currentTool = Tool.eraser then whiteChars else s.brushColor
    handleAddPath s newId (capturePath s.scale rectLeft rectTop down moves)
      col s.brushWidth
  else s

/-- Encode an ordered point sequence the way `DrawingCanvas` serializes
it: one move-to followed by one line-to per remaining point. -/
def toTokens : List (ℚ × ℚ) → List PathTok
  | [] => []
  | p :: ps => PathTok.M :: PathTok.num p.1 :: PathTok.num p.2 :: lineTokens ps

def isLineTok : PathTok → Bool
  | PathTok.L => true
  | _ => false

def hasLineTo (ts : List PathTok) : Bool :=
  ts.any isLineTok

/-- An RGB color as produced by pdf-lib's `rgb` (components in [0,1]). -/
structure Rgb where
  r : ℚ
  g : ℚ
  b : ℚ
deriving DecidableEq, Repr

def rgbBlack : Rgb := ⟨0, 0, 0⟩

/-- The character class `[a-f\d]` of `hexToRgb`'s regex, case-insensitive. -/
def isHexDigitChar (c : Char) : Bool :=
  c.isDigit || ('a' ≤ c && c ≤ 'f') || ('A' ≤ c && c ≤ 'F')

/-- `parseInt(_, 16)` on a single hex digit. -/
def hexVal (c : Char) : Nat :=
  if c.isDigit then c.toNat - '0'.toNat
  else if 'a' ≤ c && c ≤ 'f' then c.toNat - 'a'.toNat + 10
  else c.toNat - 'A'.toNat + 10

/-- The optional leading `#?` of the regex. -/
def stripHash (cs : List Char) : List Char :=
  if cs.head? = some '#' then cs.tail else cs

/-- `hexToRgb` (App.tsx lines 285-294): match
`^#?([a-f\d]\x7b2\x7d)([a-f\d]\x7b2\x7d)([a-f\d]\x7b2\x7d)$` case-insensitively
and divide each two-digit component by 255; anything else yields black. -/
def hexToRgb (hex : List Char) : Rgb :=
  match stripHash hex with
  | [c1, c2, c3, c4, c5, c6] =>
      if isHexDigitChar c1 && isHexDigitChar c2 && isHexDigitChar c3 &&
          isHexDigitChar c4 && isHexDigitChar c5 && isHexDigitChar c6 then
        ⟨((16 * hexVal c1 + hexVal c2 : ℕ) : ℚ) / 255,
         ((16 * hexVal c3 + hexVal c4 : ℕ) : ℚ) / 255,
         ((16 * hexVal c5 + hexVal c6 : ℕ) : ℚ) / 255⟩
      else rgbBlack
  | _ => rgbBlack

/-- The claim-level reading of the regex: six hexadecimal digits with an
optional leading hash. -/
def MatchesHex6 (cs : List Char) : Prop :=
  ∃ ds : List Char, ds.length = 6 ∧ ds.all isHexDigitChar = true ∧
    (cs = ds ∨ cs = '#' :: ds)

/-- The six pdf-lib standard fonts the export can embed. -/
inductive StdFont where
  | helvetica : StdFont
  | helveticaBold : StdFont
  | timesRoman : StdFont
  | timesRomanBold : StdFont
  | courier : StdFont
  | courierBold : StdFont
deriving DecidableEq, Repr

/-- Font selection of `handleDownload` (App.tsx lines 317-327). -/
def chooseFont (fontBase : List Char) (useBold : Bool) : StdFont :=
  if fontBase = timesRomanChars then
    if useBold then StdFont.timesRomanBold else StdFont.timesRoman
  else if fontBase = courierChars then
    if useBold then StdFont.courierBold else StdFont.courier
  else
    if useBold then StdFont.helveticaBold else StdFont.helvetica

/-- A draw instruction issued to the pdf-lib output writer. -/
inductive DrawOp where
  | text : List Char → ℚ → ℚ → ℚ → Rgb → Nat → DrawOp
  | line : ℚ → ℚ → ℚ → ℚ → ℚ → Rgb → DrawOp
  | image : Nat → ℚ → ℚ → ℚ → ℚ → DrawOp
deriving DecidableEq, Repr

def DrawOp.isText : DrawOp → Bool
  | DrawOp.text _ _ _ _ _ _ => true
  | _ => false

/-- The collaborators `handleDownload` consumes, each fallible step
modelled in `Except` (an error is a thrown exception). -/
structure ExportEnv where
  pages : List (ℚ × ℚ)
  pageDimensions : Option (ℚ × ℚ)
  renderedPageSize : Option (ℚ × ℚ)
  embedFont : StdFont → Except Nat Nat
  widthOfTextAtSize : Nat → List Char → ℚ → ℚ
  embedPng : Nat → Except Nat Nat
  embedJpg : Nat → Except Nat Nat
  save : List DrawOp → Except Nat (List Nat)

/-- `pages[page - 1].getSize().height` for an in-range page index. -/
def pageHeightAt (env : ExportEnv) (page : Nat) : ℚ :=
  ((env.pages.get? (page - 1)).getD (0, 0)).2

/-- The annotation loop body of `handleDownload` (App.tsx lines 311-372):
page guard, font embedding, the silent skip when either probed dimension
is missing, ratio scaling, Y-flip, half-width centering, the 0.35×size
baseline correction, and the optional underline. -/
def processAnn (env : ExportEnv) (ann : Annotation) :
    Except Nat (List DrawOp) :=
  if ann.page > env.pages.length then Except.ok []
  else
    let fontBase := jsOrS ann.font helveticaChars
    (env.embedFont (chooseFont fontBase ann.bold)).bind fun font =>
      match env.pageDimensions, env.renderedPageSize with
      | some pd, some rps =>
          let pageH := pageHeightAt env ann.page
          let ratioX := pd.1 / rps.1
          let ratioY := pd.2 / rps.2
          let pdfX := ann.x * ratioX
          let pdfY := pageH - ann.y * ratioY
          let fontSize := jsOrQ ann.fontSize 16
          let textWidth := env.widthOfTextAtSize font ann.text fontSize
          let drawX := pdfX - textWidth / 2
          let drawY := pdfY - fontSize * (35 / 100)
          let color := hexToRgb (jsOrS ann.color blackChars)
          let textOp := DrawOp.text ann.text drawX drawY fontSize color font
          if ann.underline then
            Except.ok [textOp,
              DrawOp.line drawX (drawY - 2) (drawX + textWidth) (drawY - 2)
                (max 1 (fontSize / 16)) color]
          else Except.ok [textOp]
      | _, _ => Except.ok []

/-- The image loop body of `handleDownload` (App.tsx lines 375-396):
page guard, PNG/JPEG embedding chosen by the declared MIME type, then a
single Y-flipped draw at the stored size. -/
def processImage (env : ExportEnv) (img : ImageAttachment) :
    Except Nat (List DrawOp) :=
  if img.page > env.pages.length then Except.ok []
  else
    let pageH := pageHeightAt env img.page
    (if img.fileType = pngMimeChars then env.embedPng img.fileBytes
     else env.embedJpg img.fileBytes).bind fun h =>
      Except.ok [DrawOp.image h img.x (pageH - img.y - img.height)
        img.width img.height]

/-- The token-walking loop of the path export (App.tsx lines 407-437):
an `M` moves the current point (with Y flipped by the page height), an
`L` draws a segment from the current point to the flipped target; other
tokens are passed over. -/
def pathLoop (pageH thickness : ℚ) (color : Rgb) :
    List PathTok → ℚ → ℚ → List DrawOp
  | PathTok.M :: PathTok.num x :: PathTok.num y :: rest, _, _ =>
      pathLoop pageH thickness color rest x (pageH - y)
  | PathTok.L :: PathTok.num x :: PathTok.num y :: rest, cx, cy =>
      DrawOp.line cx cy x (pageH - y) thickness color ::
        pathLoop pageH thickness color rest x (pageH - y)
  | _ :: rest, cx, cy => pathLoop pageH thickness color rest cx cy
  | [], _, _ => []

/-- The path loop body of `handleDownload` (App.tsx lines 399-438):
page guard, then the token walk starting from current point (0,0), with
the `p.width || 2` thickness fallback and `p.color || '#000000'`. -/
def processPath (env : ExportEnv) (p : PathAttachment) : List DrawOp :=
  if p.page > env.pages.length then []
  else
    pathLoop (pageHeightAt env p.page) (if p.width = 0 then 2 else p.width)
      (hexToRgb (jsOrStr p.color blackChars)) p.path 0 0

/-- Sequence a fallible per-overlay processor over a list, concatenating
the produced draw instructions; the first thrown error aborts. -/
def processList {α : Type} (f : α → Except Nat (List DrawOp)) :
    List α → Except Nat (List DrawOp)
  | [] => Except.ok []
  | a :: as =>
      (f a).bind fun ops =>
        (processList f as).bind fun rest => Except.ok (ops ++ rest)

/-- The composition phase of `handleDownload`: all three overlay loops in
order Text, Image, Path. -/
def composeOps (env : ExportEnv) (doc : DocState) : Except Nat (List DrawOp) :=
  (processList (processAnn env) doc.annotations).bind fun annOps =>
    (processList (processImage env) doc.images).bind fun imgOps =>
      Except.ok (annOps ++ imgOps ++ (doc.paths.map (processPath env)).flatten)

/-- What `handleDownload` leaves behind: the propagated result, the bytes
handed to the save surface (none on failure), and the `isSaving` flag
after the `finally` block. -/
structure ExportOutcome where
  result : Except Nat (List Nat)
  handedToSave : Option (List Nat)
  isSavingAfter : Bool
deriving Repr

/-- `handleDownload` (App.tsx lines 296-482): compose the overlay draws,
serialize with `pdfDoc.save()`, hand the bytes to the save surface; any
thrown error is caught at the top and surfaced, and `finally` clears the
saving flag in every case. -/
def handleDownload (env : ExportEnv) (doc : DocState) : ExportOutcome :=
  match (composeOps env doc).bind env.save with
  | Except.ok bytes => ⟨Except.ok bytes, some bytes, false⟩
  | Except.error e => ⟨Except.error e, none, false⟩

/-! Concrete fixtures used by witnesses and counterexamples. -/

def emptyDoc : DocState := ⟨[], [], []⟩

/-- A loaded one-page US-letter session with all collaborators succeeding
and a constant-width font-metrics stub. -/
def testEnv : ExportEnv :=
  { pages := [(612, 792)]
    pageDimensions := some (612, 792)
    renderedPageSize := some (612, 792)
    embedFont := fun _ => Except.ok 0
    widthOfTextAtSize := fun _ _ _ => 10
    embedPng := fun _ => Except.ok 1
    embedJpg := fun _ => Except.ok 2
    save := fun ops => Except.ok [ops.length] }

/-- A base app state with a loaded page and default pen settings. -/
def baseApp : AppState :=
  { docState := emptyDoc
    past := []
    future := []
    currentTool := Tool.select
    pageDimensions := some (612, 792)
    renderedPageSize := some (612, 792)
    scale := 1
    brushColor := blackChars
    brushWidth := 3
    pageNumber := 1 }

def eraserApp : AppState := { baseApp with currentTool := Tool.eraser }

def drawApp1 : AppState := { baseApp with currentTool := Tool.draw }

def drawApp2 : AppState :=
  { baseApp with currentTool := Tool.draw, scale := 2 }

def ann0 : Annotation :=
  { id := 0, text := ['H', 'i'], x := 100, y := 200, page := 1,
    color := none, fontSize := some 16, font := none,
    bold := false, underline := false }

def img0 : ImageAttachment :=
  { id := 1, fileBytes := 0, fileType := pngMimeChars,
    x := 50, y := 50, width := 200, height := 150, page := 1 }

def path0 : PathAttachment :=
  { id := 2, path := toTokens [(10, 10), (20, 20)], color := blackChars,
    width := 3, page := 1 }

/-- A session whose page dimensions were never probed. -/
def noDimsEnv : ExportEnv := { testEnv with pageDimensions := none }

/-- A session whose PNG decoder always throws. -/
def badImgEnv : ExportEnv :=
  { testEnv with embedPng := fun _ => Except.error 5 }

/-- A document holding one overlay of each kind. -/
def mixedDoc : DocState := ⟨[ann0], [img0], [path0]⟩

/-- Flip each point's Y using the output page height. -/
def flipPts (pageH : ℚ) (pts : List (ℚ × ℚ)) : List (ℚ × ℚ) :=
  pts.map fun q => (q.1, pageH - q.2)

/-- Straight segments joining consecutive points, each drawn with the
given thickness and color. -/
def segOps (thickness : ℚ) (color : Rgb) : List (ℚ × ℚ) → List DrawOp
  | p :: q :: rest =>
      DrawOp.line p.1 p.2 q.1 q.2 thickness color ::
        segOps thickness color (q :: rest)
  | _ => []

lemma getLast?_snoc {α : Type} (l : List α) (a : α) :
    (l ++ [a]).getLast? = some a := by
  rw [List.getLast?_append_cons]
  rfl

lemma undo_pushState (h : AppHistory) (s : DocState) :
    undo (pushState h s) =
      { docState := h.docState, past := h.past, future := [s] } := by
  simp [pushState, undo, getLast?_snoc]

lemma redo_undo_pushState (h : AppHistory) (s : DocState) :
    redo (undo (pushState h s)) = pushState h s := by
  rw [undo_pushState]
  simp [redo, pushState]

/-- N commits followed by N undos return to the pre-commit current state and
past, with all committed states lined up in `future`. -/
lemma undo_iterate_foldl (ss : List DocState) :
    ∀ h : AppHistory, h.future = [] →
      undo^[ss.length] (List.foldl pushState h ss) =
        { docState := h.docState, past := h.past, future := ss } := by
  induction ss with
  | nil =>
      intro h hf
      cases h with
      | mk d p f => simp_all
  | cons s ss ih =>
      intro h hf
      have hstep := ih (pushState h s) rfl
      simp only [List.foldl_cons, List.length_cons]
      rw [Function.iterate_succ_apply', hstep]
      simp [undo, pushState, getLast?_snoc]

lemma redo_of_future_nil (h : AppHistory) (hf : h.future = []) : redo h = h := by
  unfold redo
  rw [hf]

/-- C1: `undo()` after a commit of `s` restores the state current
immediately before that commit; `redo()` right after that `undo()`
restores `s` (and the whole history); and a session of N commits followed
by N undos ends with the current state equal to the state before the
first commit and an empty "past". -/
theorem C1_history_undo_redo :
    ∀ (h : AppHistory) (s : DocState),
      (undo (pushState h s)).docState = h.docState ∧
      redo (undo (pushState h s)) = pushState h s ∧
      ∀ (c0 : DocState) (ss : List DocState),
        (undo^[ss.length] (List.foldl pushState ⟨c0, [], []⟩ ss)).docState = c0 ∧
        (undo^[ss.length] (List.foldl pushState ⟨c0, [], []⟩ ss)).past = [] := by
  intro h s
  refine ⟨?_, redo_undo_pushState h s, ?_⟩
  · rw [undo_pushState]
  · intro c0 ss
    rw [undo_iterate_foldl ss ⟨c0, [], []⟩ rfl]
    exact ⟨rfl, rfl⟩

/-- C2: a commit (`pushState`) always empties "future", so the
immediately following `redo()` changes neither the current document
state nor the history; in general `redo` is a no-op whenever "future"
is empty. -/
theorem C2_commit_discards_future :
    ∀ (h : AppHistory) (s : DocState),
      (pushState h s).future = [] ∧
      redo (pushState h s) = pushState h s ∧
      ∀ h' : AppHistory, h'.future = [] → redo h' = h' := by
  intro h s
  refine ⟨rfl, ?_, fun h' hf => redo_of_future_nil h' hf⟩
  exact redo_of_future_nil (pushState h s) rfl

theorem C2_commit_discards_future_witness :
    (pushState ⟨emptyDoc, [], [emptyDoc]⟩ emptyDoc).future = [] ∧
    redo (pushState ⟨emptyDoc, [], [emptyDoc]⟩ emptyDoc) =
      pushState ⟨emptyDoc, [], [emptyDoc]⟩ emptyDoc ∧
    redo ⟨emptyDoc, [], []⟩ = ⟨emptyDoc, [], []⟩ := by
  refine ⟨(C2_commit_discards_future _ emptyDoc).1,
    (C2_commit_discards_future ⟨emptyDoc, [], [emptyDoc]⟩ emptyDoc).2.1,
    (C2_commit_discards_future ⟨emptyDoc, [], []⟩ emptyDoc).2.2 ⟨emptyDoc, [], []⟩ rfl⟩

lemma drawGesture_eraser (s : AppState) (newId : Nat) (rl rt : ℚ)
    (down : ℚ × ℚ) (moves : List (ℚ × ℚ)) (ht : s.currentTool = Tool.eraser)
    (pd : ℚ × ℚ) (hpd : s.pageDimensions = some pd) :
    drawGesture s newId rl rt down moves =
      appPushState s
        { s.docState with
          paths := s.docState.paths ++
            [⟨newId, capturePath s.scale rl rt down moves, whiteChars,
              s.brushWidth, s.pageNumber⟩] } := by
  unfold drawGesture handleAddPath
  rw [ht, hpd]
  simp

lemma drawGesture_draw (s : AppState) (newId : Nat) (rl rt : ℚ)
    (down : ℚ × ℚ) (moves : List (ℚ × ℚ)) (ht : s.currentTool = Tool.draw)
    (pd : ℚ × ℚ) (hpd : s.pageDimensions = some pd) :
    drawGesture s newId rl rt down moves =
      appPushState s
        { s.docState with
          paths := s.docState.paths ++
            [⟨newId, capturePath s.scale rl rt down moves, s.brushColor,
              s.brushWidth, s.pageNumber⟩] } := by
  unfold drawGesture handleAddPath
  rw [ht, hpd]
  simp

/-- C6 fails on the code: with the eraser active, a click (pointer-down
then pointer-up, no move) on empty page surface mutates the document
state and the history — the active drawing canvas is mounted with
`isDrawing` true for the eraser and commits a single-point white path. -/
theorem C6_counterexample :
    ¬ ((drawGesture eraserApp 7 0 0 (10, 10) []).docState = eraserApp.docState ∧
       (drawGesture eraserApp 7 0 0 (10, 10) []).past = eraserApp.past) := by
  intro hc
  have h1 := congrArg (fun d : DocState => d.paths.length) hc.1
  rw [drawGesture_eraser eraserApp 7 0 0 (10, 10) [] rfl (612, 792) rfl] at h1
  simp [appPushState, eraserApp, baseApp, emptyDoc] at h1

/-- C6 amended: with the eraser active on a loaded page, a click on
empty page surface commits a new single-point white (`#FFFFFF`) path
overlay through the active drawing canvas — annotations and images are
untouched but the paths collection grows and a history entry is pushed;
merely switching the tool mutates no overlay. -/
theorem C6_amended_eraser_click (s : AppState) (newId : Nat) (rl rt : ℚ)
    (pt : ℚ × ℚ) (ht : s.currentTool = Tool.eraser) (pd : ℚ × ℚ)
    (hpd : s.pageDimensions = some pd) :
    (drawGesture s newId rl rt pt []).docState.annotations =
      s.docState.annotations ∧
    (drawGesture s newId rl rt pt []).docState.images = s.docState.images ∧
    (drawGesture s newId rl rt pt []).docState.paths =
      s.docState.paths ++
        [⟨newId, capturePath s.scale rl rt pt [], whiteChars,
          s.brushWidth, s.pageNumber⟩] ∧
    (drawGesture s newId rl rt pt []).past = s.past ++ [s.docState] ∧
    ∀ t : Tool, (setTool s t).docState = s.docState := by
  rw [drawGesture_eraser s newId rl rt pt [] ht pd hpd]
  exact ⟨rfl, rfl, rfl, rfl, fun t => rfl⟩

theorem C6_amended_eraser_click_witness :
    (drawGesture eraserApp 7 0 0 (10, 10) []).docState.annotations =
      eraserApp.docState.annotations ∧
    (drawGesture eraserApp 7 0 0 (10, 10) []).docState.images =
      eraserApp.docState.images ∧
    (drawGesture eraserApp 7 0 0 (10, 10) []).docState.paths =
      eraserApp.docState.paths ++
        [⟨7, capturePath eraserApp.scale 0 0 (10, 10) [], whiteChars,
          eraserApp.brushWidth, eraserApp.pageNumber⟩] ∧
    (drawGesture eraserApp 7 0 0 (10, 10) []).past =
      eraserApp.past ++ [eraserApp.docState] ∧
    ∀ t : Tool, (setTool eraserApp t).docState = eraserApp.docState :=
  C6_amended_eraser_click eraserApp 7 0 0 (10, 10) rfl (612, 792) rfl

/-- C7: ink capture is zoom-invariant — at any zoom z > 0, the gesture
down at canvas offset (z·10, z·10), moves to (z·20, z·10) and
(z·20, z·20), then up commits a path whose points are exactly
(10,10), (20,10), (20,20) in rendered-space at zoom 1. -/
theorem C7_zoom_invariant_capture (z : ℚ) (hz : 0 < z) (s : AppState)
    (newId : Nat) (rl rt : ℚ) (ht : s.currentTool = Tool.draw)
    (pd : ℚ × ℚ) (hpd : s.pageDimensions = some pd) (hs : s.scale = z) :
    (drawGesture s newId rl rt (rl + z * 10, rt + z * 10)
        [(rl + z * 20, rt + z * 10), (rl + z * 20, rt + z * 20)]).docState.paths =
      s.docState.paths ++
        [⟨newId, toTokens [(10, 10), (20, 10), (20, 20)], s.brushColor,
          s.brushWidth, s.pageNumber⟩] := by
  have hz' : z ≠ 0 := ne_of_gt hz
  rw [drawGesture_draw s newId rl rt _ _ ht pd hpd]
  simp only [appPushState]
  congr 2
  simp [capturePath, toTokens, hs, hz']

theorem C7_zoom_invariant_capture_witness :
    (drawGesture drawApp2 3 0 0 (0 + 2 * 10, 0 + 2 * 10)
        [(0 + 2 * 20, 0 + 2 * 10), (0 + 2 * 20, 0 + 2 * 20)]).docState.paths =
      drawApp2.docState.paths ++
        [⟨3, toTokens [(10, 10), (20, 10), (20, 20)], drawApp2.brushColor,
          drawApp2.brushWidth, drawApp2.pageNumber⟩] :=
  C7_zoom_invariant_capture 2 (by norm_num) drawApp2 3 0 0 rfl (612, 792)
    rfl rfl

lemma capturePath_eq_toTokens (sc rl rt : ℚ) (down : ℚ × ℚ)
    (moves : List (ℚ × ℚ)) :
    capturePath sc rl rt down moves =
      toTokens (((down.1 - rl) / sc, (down.2 - rt) / sc) ::
        moves.map fun m => ((m.1 - rl) / sc, (m.2 - rt) / sc)) := rfl

lemma hasLineTo_toTokens (p : ℚ × ℚ) (ps : List (ℚ × ℚ)) :
    hasLineTo (toTokens (p :: ps)) = true ↔ ps ≠ [] := by
  cases ps with
  | nil => simp [toTokens, lineTokens, hasLineTo, isLineTok]
  | cons q qs => simp [toTokens, lineTokens, hasLineTo, isLineTok]

/-- C8 fails on the code: a finalized gesture with a pointer-down and no
pointer-move (a plain click in draw mode) commits a path consisting of a
single move-to token with no line-to command — `handleMouseUp` commits
whenever the scratch path is a non-empty string, which is already true
right after the pointer-down. -/
theorem C8_counterexample :
    (drawGesture drawApp1 5 0 0 (10, 10) []).docState.paths =
      [⟨5, [PathTok.M, PathTok.num ((10 - 0) / 1), PathTok.num ((10 - 0) / 1)],
        blackChars, 3, 1⟩] ∧
    hasLineTo [PathTok.M, PathTok.num ((10 - 0) / 1),
      PathTok.num ((10 - 0) / 1)] = false := by
  rw [drawGesture_draw drawApp1 5 0 0 (10, 10) [] rfl (612, 792) rfl]
  exact ⟨rfl, rfl⟩

/-- C8 amended: every committed path is one move-to followed by zero or
more line-tos — one line-to per pointer-move — so the committed path
contains an `L` command exactly when the gesture included at least one
pointer-move; a click with no movement commits a move-to-only path. -/
theorem C8_amended_committed_path_shape (s : AppState) (newId : Nat)
    (rl rt : ℚ) (down : ℚ × ℚ) (moves : List (ℚ × ℚ))
    (ht : s.currentTool = Tool.draw) (pd : ℚ × ℚ)
    (hpd : s.pageDimensions = some pd) :
    ∃ p : PathAttachment,
      (drawGesture s newId rl rt down moves).docState.paths =
        s.docState.paths ++ [p] ∧
      p.path = toTokens (((down.1 - rl) / s.scale, (down.2 - rt) / s.scale) ::
        moves.map fun m => ((m.1 - rl) / s.scale, (m.2 - rt) / s.scale)) ∧
      (hasLineTo p.path = true ↔ moves ≠ []) := by
  rw [drawGesture_draw s newId rl rt down moves ht pd hpd]
  refine ⟨⟨newId, capturePath s.scale rl rt down moves, s.brushColor,
    s.brushWidth, s.pageNumber⟩, rfl, capturePath_eq_toTokens _ _ _ _ _, ?_⟩
  rw [capturePath_eq_toTokens, hasLineTo_toTokens]
  simp

theorem C8_amended_committed_path_shape_witness :
    ∃ p : PathAttachment,
      (drawGesture drawApp1 5 0 0 (10, 10) [(20, 10)]).docState.paths =
        drawApp1.docState.paths ++ [p] ∧
      p.path = toTokens
        (((10 - 0) / drawApp1.scale, (10 - 0) / drawApp1.scale) ::
          [((20 : ℚ), (10 : ℚ))].map fun m =>
            ((m.1 - 0) / drawApp1.scale, (m.2 - 0) / drawApp1.scale)) ∧
      (hasLineTo p.path = true ↔ ([((20 : ℚ), (10 : ℚ))] :
        List (ℚ × ℚ)) ≠ []) :=
  C8_amended_committed_path_shape drawApp1 5 0 0 (10, 10)
    [((20 : ℚ), (10 : ℚ))] rfl (612, 792) rfl

/-- C3: a text overlay at stored center (x, y) with font size f, native
page size (W, H), rendered page size (w, h) and measured text width tw is
drawn at X = x·(W/w) − tw/2 and Y = H − y·(H/h) − 0.35·f: component-wise
ratio scaling, Y-flip by the output height, half-width centering, and
the 0.35×font-size baseline correction. -/
theorem C3_text_export_formula (env : ExportEnv) (ann : Annotation)
    (W H w h f tw : ℚ) (F : Nat)
    (hpd : env.pageDimensions = some (W, H))
    (hrps : env.renderedPageSize = some (w, h))
    (hpage : ¬ ann.page > env.pages.length)
    (hH : pageHeightAt env ann.page = H)
    (hfont : env.embedFont
      (chooseFont (jsOrS ann.font helveticaChars) ann.bold) = Except.ok F)
    (hfs : ann.fontSize = some f) (hf0 : f ≠ 0)
    (htw : env.widthOfTextAtSize F ann.text f = tw) :
    ∃ rest, processAnn env ann =
      Except.ok (DrawOp.text ann.text (ann.x * (W / w) - tw / 2)
        (H - ann.y * (H / h) - f * (35 / 100)) f
        (hexToRgb (jsOrS ann.color blackChars)) F :: rest) := by
  unfold processAnn
  rw [if_neg hpage]
  simp only [hfont, hpd, hrps, hH, hfs, jsOrQ, htw, Except.bind, hf0,
    ite_false, if_false]
  cases hu : ann.underline
  · exact ⟨[], by simp⟩
  · exact ⟨[DrawOp.line (ann.x * (W / w) - tw / 2)
      (H - ann.y * (H / h) - f * (35 / 100) - 2)
      (ann.x * (W / w) - tw / 2 + tw)
      (H - ann.y * (H / h) - f * (35 / 100) - 2) (max 1 (f / 16))
      (hexToRgb (jsOrS ann.color blackChars))], by simp⟩

theorem C3_text_export_formula_witness :
    ∃ rest, processAnn testEnv ann0 =
      Except.ok (DrawOp.text ann0.text (ann0.x * (612 / 612) - 10 / 2)
        (792 - ann0.y * (792 / 792) - 16 * (35 / 100)) 16
        (hexToRgb (jsOrS ann0.color blackChars)) 0 :: rest) :=
  C3_text_export_formula testEnv ann0 612 792 612 792 16 10 0 rfl rfl
    (by decide) rfl rfl rfl (by norm_num) rfl

lemma hexToRgb_blackChars : hexToRgb blackChars = rgbBlack := by
  simp [hexToRgb, blackChars, stripHash, isHexDigitChar, hexVal, rgbBlack]

lemma hexToRgb_jsOrStr_black (c : List Char) :
    hexToRgb (jsOrStr c blackChars) = hexToRgb c := by
  unfold jsOrStr
  split
  · next hc => rw [hc, hexToRgb_blackChars]; rfl
  · rfl

lemma pathLoop_lineTokens (pageH t : ℚ) (c : Rgb) (pts : List (ℚ × ℚ)) :
    ∀ p0 : ℚ × ℚ,
      pathLoop pageH t c (lineTokens pts) p0.1 (pageH - p0.2) =
        segOps t c (flipPts pageH (p0 :: pts)) := by
  induction pts with
  | nil => intro p0; rfl
  | cons q qs ih =>
      intro p0
      simp only [lineTokens, pathLoop, flipPts, List.map_cons, segOps]
      have hq := ih q
      simp only [flipPts, List.map_cons] at hq
      rw [hq]

lemma processPath_points (env : ExportEnv) (p : PathAttachment) (H : ℚ)
    (pt : ℚ × ℚ) (pts : List (ℚ × ℚ))
    (hpage : ¬ p.page > env.pages.length)
    (hH : pageHeightAt env p.page = H)
    (hpath : p.path = toTokens (pt :: pts)) (hw : p.width ≠ 0) :
    processPath env p = segOps p.width (hexToRgb p.color) (flipPts H (pt :: pts)) := by
  unfold processPath
  rw [if_neg hpage, hH, hpath, hexToRgb_jsOrStr_black, if_neg hw]
  show pathLoop H p.width (hexToRgb p.color)
    (PathTok.M :: PathTok.num pt.1 :: PathTok.num pt.2 :: lineTokens pts) 0 0 =
    segOps p.width (hexToRgb p.color) (flipPts H (pt :: pts))
  rw [pathLoop]
  exact pathLoop_lineTokens H p.width (hexToRgb p.color) pts pt

/-- C4: image and path overlays get no rendered-to-output ratio scaling,
only a Y-flip by the output page height — an image with top-left (x, y)
and size (w, h) is drawn at (x, pageHeight − y − h) at its stored size,
and each path point (px, py) maps to (px, pageHeight − py), consecutive
points joined by straight segments with the stored stroke width and
color. -/
theorem C4_image_path_export :
    (∀ (env : ExportEnv) (img : ImageAttachment) (ih : Nat) (H : ℚ),
      ¬ img.page > env.pages.length →
      pageHeightAt env img.page = H →
      (if img.fileType = pngMimeChars then env.embedPng img.fileBytes
       else env.embedJpg img.fileBytes) = Except.ok ih →
      processImage env img = Except.ok
        [DrawOp.image ih img.x (H - img.y - img.height)
          img.width img.height]) ∧
    (∀ (env : ExportEnv) (p : PathAttachment) (H : ℚ) (pt : ℚ × ℚ)
      (pts : List (ℚ × ℚ)),
      ¬ p.page > env.pages.length →
      pageHeightAt env p.page = H →
      p.path = toTokens (pt :: pts) →
      p.width ≠ 0 →
      processPath env p =
        segOps p.width (hexToRgb p.color) (flipPts H (pt :: pts))) := by
  constructor
  · intro env img ih H hpage hH hembed
    unfold processImage
    rw [if_neg hpage, hembed, hH]
    rfl
  · intro env p H pt pts hpage hH hpath hw
    exact processPath_points env p H pt pts hpage hH hpath hw

theorem C4_image_path_export_witness :
    processImage testEnv img0 = Except.ok
      [DrawOp.image 1 img0.x (792 - img0.y - img0.height)
        img0.width img0.height] ∧
    processPath testEnv path0 =
      segOps path0.width (hexToRgb path0.color)
        (flipPts 792 [(10, 10), (20, 20)]) :=
  ⟨C4_image_path_export.1 testEnv img0 1 792 (by decide) rfl rfl,
   C4_image_path_export.2 testEnv path0 792 (10, 10) [(20, 20)]
     (by decide) rfl rfl (by decide)⟩

lemma processList_error {α : Type} (f : α → Except Nat (List DrawOp))
    (as : List α) (hfail : ∃ a ∈ as, ∃ e, f a = Except.error e) :
    ∃ e, processList f as = Except.error e := by
  induction as with
  | nil =>
      rcases hfail with ⟨a, ha, _⟩
      exact absurd ha (List.not_mem_nil a)
  | cons a as ih =>
      rcases hfail with ⟨b, hb, e, hbe⟩
      rcases List.mem_cons.mp hb with hba | hbtail
      · subst hba
        exact ⟨e, by simp [processList, hbe, Except.bind]⟩
      · cases hfa : f a with
        | error e' => exact ⟨e', by simp [processList, hfa, Except.bind]⟩
        | ok ops =>
            obtain ⟨e', he'⟩ := ih ⟨b, hbtail, e, hbe⟩
            exact ⟨e', by simp [processList, hfa, he', Except.bind]⟩

/-- C5: if any overlay's processing throws (font resolution, image
decode) or the output serialization throws, the whole export is aborted
with a single surfaced error, no bytes are produced or handed to the
save surface, and the saving flag ends cleared. -/
theorem C5_export_failure_aborts (env : ExportEnv) (doc : DocState)
    (hfail :
      (∃ ann ∈ doc.annotations, ∃ e, processAnn env ann = Except.error e) ∨
      (∃ img ∈ doc.images, ∃ e, processImage env img = Except.error e) ∨
      (∀ ops, ∃ e, env.save ops = Except.error e)) :
    ∃ e, handleDownload env doc = ⟨Except.error e, none, false⟩ := by
  rcases hfail with hann | himg | hsave
  · obtain ⟨e, he⟩ := processList_error _ _ hann
    exact ⟨e, by simp [handleDownload, composeOps, he, Except.bind]⟩
  · cases hA : processList (processAnn env) doc.annotations with
    | error e => exact ⟨e, by simp [handleDownload, composeOps, hA, Except.bind]⟩
    | ok annOps =>
        obtain ⟨e, he⟩ := processList_error _ _ himg
        exact ⟨e, by simp [handleDownload, composeOps, hA, he, Except.bind]⟩
  · cases hC : composeOps env doc with
    | error e => exact ⟨e, by simp [handleDownload, hC, Except.bind]⟩
    | ok ops =>
        obtain ⟨e, he⟩ := hsave ops
        exact ⟨e, by simp [handleDownload, hC, he, Except.bind]⟩

theorem C5_export_failure_aborts_witness :
    ∃ e, handleDownload badImgEnv mixedDoc = ⟨Except.error e, none, false⟩ :=
  C5_export_failure_aborts badImgEnv mixedDoc
    (Or.inr (Or.inl ⟨img0, by simp [mixedDoc], 5, rfl⟩))

lemma processAnn_skip (env : ExportEnv) (ann : Annotation)
    (hdim : env.pageDimensions = none ∨ env.renderedPageSize = none)
    (hfont : ∀ fk, ∃ fh, env.embedFont fk = Except.ok fh) :
    processAnn env ann = Except.ok [] := by
  unfold processAnn
  split
  · rfl
  · obtain ⟨fh, hf⟩ := hfont (chooseFont (jsOrS ann.font helveticaChars) ann.bold)
    simp only [hf, Except.bind]
    rcases hdim with h | h
    · cases hr : env.renderedPageSize <;> simp [h, hr]
    · cases hp : env.pageDimensions <;> simp [h, hp]

lemma processList_ok_nil {α : Type} (f : α → Except Nat (List DrawOp))
    (as : List α) (h : ∀ a ∈ as, f a = Except.ok []) :
    processList f as = Except.ok [] := by
  induction as with
  | nil => rfl
  | cons a as ih =>
      simp [processList, h a (by simp),
        ih (fun b hb => h b (by simp [hb])), Except.bind]

lemma processList_ok_exists {α : Type} (f : α → Except Nat (List DrawOp))
    (as : List α) (h : ∀ a ∈ as, ∃ l, f a = Except.ok l) :
    ∃ l, processList f as = Except.ok l := by
  induction as with
  | nil => exact ⟨[], rfl⟩
  | cons a as ih =>
      obtain ⟨l, hl⟩ := h a (by simp)
      obtain ⟨ls, hls⟩ := ih (fun b hb => h b (by simp [hb]))
      exact ⟨l ++ ls, by simp [processList, hl, hls, Except.bind]⟩

/-- C9: when the native page dimensions or the rendered page size were
never probed, every text overlay is silently skipped (right after its
font was embedded) — the annotation pass contributes no draw
instructions and raises no error, and the export still succeeds,
handing over bytes that omit the text overlays. -/
theorem C9_missing_dims_silently_skips_text (env : ExportEnv)
    (doc : DocState)
    (hdim : env.pageDimensions = none ∨ env.renderedPageSize = none)
    (hfont : ∀ fk, ∃ fh, env.embedFont fk = Except.ok fh)
    (himg : ∀ img ∈ doc.images, ∃ l, processImage env img = Except.ok l)
    (hsave : ∀ ops, ∃ bytes, env.save ops = Except.ok bytes) :
    (∀ ann ∈ doc.annotations, processAnn env ann = Except.ok []) ∧
    ∃ bytes, handleDownload env doc = ⟨Except.ok bytes, some bytes, false⟩ := by
  have hskip : ∀ ann ∈ doc.annotations, processAnn env ann = Except.ok [] :=
    fun a _ => processAnn_skip env a hdim hfont
  have hA : processList (processAnn env) doc.annotations = Except.ok [] :=
    processList_ok_nil _ _ hskip
  refine ⟨hskip, ?_⟩
  obtain ⟨imgOps, hI⟩ := processList_ok_exists _ _ himg
  obtain ⟨bytes, hS⟩ :=
    hsave (imgOps ++ (doc.paths.map (processPath env)).flatten)
  exact ⟨bytes, by simp [handleDownload, composeOps, hA, hI, hS, Except.bind]⟩

theorem C9_missing_dims_silently_skips_text_witness :
    (∀ ann ∈ mixedDoc.annotations,
      processAnn noDimsEnv ann = Except.ok []) ∧
    ∃ bytes, handleDownload noDimsEnv mixedDoc =
      ⟨Except.ok bytes, some bytes, false⟩ :=
  C9_missing_dims_silently_skips_text noDimsEnv mixedDoc (Or.inl rfl)
    (fun fk => ⟨0, rfl⟩)
    (fun img himg => by
      simp only [mixedDoc, List.mem_singleton] at himg
      subst himg
      exact ⟨_, rfl⟩)
    (fun ops => ⟨_, rfl⟩)

lemma stripHash_cases (cs : List Char) :
    cs = stripHash cs ∨ cs = '#' :: stripHash cs := by
  unfold stripHash
  split
  · rename_i hcond
    rcases cs with _ | ⟨c, rest⟩
    · simp at hcond
    · simp only [List.head?_cons, Option.some_inj] at hcond
      subst hcond
      right; rfl
  · left; rfl

lemma matchesHex6_of_shape (cs : List Char) (c1 c2 c3 c4 c5 c6 : Char)
    (hs : stripHash cs = [c1, c2, c3, c4, c5, c6])
    (hhex : (isHexDigitChar c1 && isHexDigitChar c2 && isHexDigitChar c3 &&
      isHexDigitChar c4 && isHexDigitChar c5 && isHexDigitChar c6) = true) :
    MatchesHex6 cs := by
  have h6 := hhex
  simp only [Bool.and_eq_true] at h6
  obtain ⟨⟨⟨⟨⟨h1, h2⟩, h3⟩, h4⟩, h5⟩, hx6⟩ := h6
  refine ⟨[c1, c2, c3, c4, c5, c6], rfl, ?_, ?_⟩
  · simp [h1, h2, h3, h4, h5, hx6]
  · rcases stripHash_cases cs with h | h
    · left; rw [h, hs]
    · right; rw [h, hs]

lemma hexToRgb_black_of_not_match (cs : List Char) (h : ¬ MatchesHex6 cs) :
    hexToRgb cs = rgbBlack := by
  unfold hexToRgb
  split
  · rename_i c1 c2 c3 c4 c5 c6 heq
    by_cases hhex : (isHexDigitChar c1 && isHexDigitChar c2 &&
      isHexDigitChar c3 && isHexDigitChar c4 && isHexDigitChar c5 &&
      isHexDigitChar c6) = true
    · exact absurd (matchesHex6_of_shape cs c1 c2 c3 c4 c5 c6 heq hhex) h
    · rw [if_neg hhex]
  · rfl

/-- C10: the export color parser is total — any string that is not six
hexadecimal digits with an optional leading hash yields black
rgb(0,0,0), and a matching `#RRGGBB` string yields each two-digit
component divided by 255. -/
theorem C10_hexToRgb_total (cs : List Char) :
    (¬ MatchesHex6 cs → hexToRgb cs = rgbBlack) ∧
    ∀ d1 d2 d3 d4 d5 d6 : Char,
      isHexDigitChar d1 = true → isHexDigitChar d2 = true →
      isHexDigitChar d3 = true → isHexDigitChar d4 = true →
      isHexDigitChar d5 = true → isHexDigitChar d6 = true →
      cs = '#' :: [d1, d2, d3, d4, d5, d6] →
      hexToRgb cs =
        ⟨((16 * hexVal d1 + hexVal d2 : ℕ) : ℚ) / 255,
         ((16 * hexVal d3 + hexVal d4 : ℕ) : ℚ) / 255,
         ((16 * hexVal d5 + hexVal d6 : ℕ) : ℚ) / 255⟩ := by
  constructor
  · exact hexToRgb_black_of_not_match cs
  · intro d1 d2 d3 d4 d5 d6 h1 h2 h3 h4 h5 h6 hcs
    subst hcs
    unfold hexToRgb
    simp [stripHash, h1, h2, h3, h4, h5, h6]

theorem C10_hexToRgb_total_witness :
    hexToRgb ['z'] = rgbBlack ∧
    hexToRgb ['#', 'f', 'f', '0', '0', 'a', 'b'] =
      ⟨((16 * hexVal 'f' + hexVal 'f' : ℕ) : ℚ) / 255,
       ((16 * hexVal '0' + hexVal '0' : ℕ) : ℚ) / 255,
       ((16 * hexVal 'a' + hexVal 'b' : ℕ) : ℚ) / 255⟩ := by
  constructor
  · refine (C10_hexToRgb_total ['z']).1 ?_
    rintro ⟨ds, hlen, _, hcs | hcs⟩
    · rw [← hcs] at hlen
      simp at hlen
    · simp at hcs
  · exact (C10_hexToRgb_total _).2 'f' 'f' '0' '0' 'a' 'b' (by decide)
      (by decide) (by decide) (by decide) (by decide) (by decide) rfl

end PdfEditor
